import Mathlib

/-!
# Connection manager of the replication client (package conn, manager.go)

A shallow embedding of `Manager`, `NewManager`, `Manager.GetConn`,
`Manager.Close` and `GetRawConn`.

The Go code talks to three collaborators: the connection capability
(`IsAlive`, `StartReplication`, `Close`), the driver call
`pgx.ReplicationConnect`, and the retry loop `backoff.Retry`.  Their answers
are inputs of the model (`Env`); every call made to them is appended to a
trace kept in `World`, so that "how many calls, on what, in which order" are
statements about lists.  A connection is identified by a number; every
successful `pgx.ReplicationConnect` allocates the next unused number, as the
Go call allocates a new object.
-/

namespace Conn

/-- Identity of a connection object (a Go pointer). -/
abbrev ConnId := Nat

/-- A Go `error` value. -/
abbrev Err := String

/-- The fields of `pgx.ConnConfig` the manager passes through: host, port,
credentials and database. -/
structure ConnConfig where
  Host : String
  Port : Nat
  User : String
  Password : String
  Database : String
deriving DecidableEq, Repr

/-- One call made to a collaborator. -/
inductive Event where
  /-- The call `c.IsAlive()` and its answer. -/
  | isAlive (c : ConnId) (alive : Bool)
  /-- Entry into `GetRawConn(cfg)`. -/
  | getRawConn (cfg : ConnConfig)
  /-- The line `log.Infof("Attempting to create a connection to %s on %d", host, port)`. -/
  | log (host : String) (port : Nat)
  /-- The call `pgx.ReplicationConnect(cfg)` and the pair it returned. -/
  | replicationConnect (cfg : ConnConfig) (conn : Option ConnId) (err : Option Err)
  /-- The call `c.StartReplication(slot, startLsn, timeline)` and its result. -/
  | startReplication (c : ConnId) (slot : String) (startLsn : Nat) (timeline : Int)
      (err : Option Err)
  /-- The call `c.Close()`. -/
  | close (c : ConnId)
deriving DecidableEq, Repr

/-- The world outside the manager: the next unused connection identity and
the calls made so far, oldest first. -/
structure World where
  nextConn : ConnId
  trace : List Event
deriving DecidableEq, Repr

/-- A world in which nothing has happened yet. -/
def World.init : World := { nextConn := 0, trace := [] }

/-- Append one event to the trace. -/
def World.emit (w : World) (e : Event) : World :=
  { w with trace := w.trace ++ [e] }

/-- Answers of the collaborators during one call of the manager.
`ReplicationConnect i` is the error of the `i`-th dial attempt of a retry
sequence (`none`: the dial succeeds); `GetElapsedTime i` is the elapsed time
in nanoseconds the retry policy reads after the `i`-th attempt has failed. -/
structure Env where
  IsAlive : ConnId → Bool
  ReplicationConnect : Nat → Option Err
  GetElapsedTime : Nat → Nat
  StartReplication : ConnId → String → Nat → Int → Option Err

/-- The struct `Manager`. -/
structure Manager where
  sourceConfig : ConnConfig
  conn : Option ConnId
  replicationSlot : String
deriving DecidableEq, Repr

/-- `NewManager`: a manager with the given configuration and no connection. -/
def NewManager (sourceConfig : ConnConfig) (replicationSlot : String) : Manager :=
  { sourceConfig := sourceConfig
    conn := none
    replicationSlot := replicationSlot }

/-- `time.Second`, in nanoseconds. -/
def Second : Nat := 1000000000

/-- The field `MaxElapsedTime: time.Second * 20` of the retry policy. -/
def MaxElapsedTime : Nat := Second * 20

/-- The driver call `pgx.ReplicationConnect(cfg)`, the `i`-th of a retry
sequence: on failure `(nil, err)`, on success a new connection. -/
def ReplicationConnect (env : Env) (i : Nat) (cfg : ConnConfig) (w : World) :
    Option ConnId × Option Err × World :=
  match env.ReplicationConnect i with
  | some e => (none, some e, w.emit (.replicationConnect cfg none (some e)))
  | none =>
    (some w.nextConn, none,
      { nextConn := w.nextConn + 1
        trace := w.trace ++ [.replicationConnect cfg (some w.nextConn) none] })

/-- The variables `conn` and `err` of `GetRawConn` that the closure
`operation` captures, the number of times the closure has run, and the
world. -/
structure RawState where
  conn : Option ConnId
  err : Option Err
  calls : Nat
  world : World
deriving DecidableEq, Repr

/-- The closure `operation` of `GetRawConn`: log the attempt, dial, store the
pair in `conn, err`, return `err`. -/
def operation (env : Env) (sourceConfig : ConnConfig) (s : RawState) : Option Err × RawState :=
  let w1 := s.world.emit (.log sourceConfig.Host sourceConfig.Port)
  match ReplicationConnect env s.calls sourceConfig w1 with
  | (conn, err, w2) => (err, { conn := conn, err := err, calls := s.calls + 1, world := w2 })

/-- Modelled from the spec: `backoff.Retry` with an `ExponentialBackOff`
policy, of the library github.com/cenkalti/backoff, is not under src/.  "Retries
continue only while the cumulative elapsed time is under budget; once
exhausted, returns the last underlying dial error": the operation is run; a
nil result ends the loop with nil; after a failure the elapsed time is read,
and when it exceeds the budget the loop ends with that failure, otherwise the
operation is run again.  `i` counts the failures so far; `fuel` bounds the
number of attempts the model follows, `none` meaning it was not enough. -/
def Retry {σ : Type} (operation : σ → Option Err × σ) (elapsed : Nat → Nat)
    (maxElapsedTime : Nat) : Nat → Nat → σ → Option (Option Err × σ)
  | 0, _, _ => none
  | fuel + 1, i, s =>
    match operation s with
    | (none, s1) => some (none, s1)
    | (some e, s1) =>
      if elapsed i > maxElapsedTime then some (some e, s1)
      else Retry operation elapsed maxElapsedTime fuel (i + 1) s1

/-- `GetRawConn`: `pgx.ReplicationConnect` inside the retry loop.  Returns the
pair `(conn, err)` and the world; `none` when `fuel` attempts did not end the
loop. -/
def GetRawConn (env : Env) (fuel : Nat) (sourceConfig : ConnConfig) (w : World) :
    Option (Option ConnId × Option Err × World) :=
  let s0 : RawState :=
    { conn := none, err := none, calls := 0, world := w.emit (.getRawConn sourceConfig) }
  match Retry (operation env sourceConfig) env.GetElapsedTime MaxElapsedTime fuel 0 s0 with
  | none => none
  | some (some e, s) => some (none, some e, s.world)
  | some (none, s) => some (s.conn, none, s.world)

/-- What one call of `GetConn` yields: the returned pair, the manager and the
world afterwards. -/
structure GetConnResult where
  conn : Option ConnId
  err : Option Err
  manager : Manager
  world : World
deriving DecidableEq, Repr

/-- The condition `m.conn == nil || !m.conn.IsAlive()`; `IsAlive` is called
only on a connection that is present. -/
def needsConn (env : Env) (m : Manager) (w : World) : Bool × World :=
  match m.conn with
  | none => (true, w)
  | some c => (!env.IsAlive c, w.emit (.isAlive c (env.IsAlive c)))

/-- `Manager.GetConn`.  `none` when the retry loop of `GetRawConn` was not
followed to its end, or when `StartReplication` would be called on a nil
connection. -/
def GetConn (env : Env) (fuel : Nat) (m : Manager) (w : World) : Option GetConnResult :=
  match needsConn env m w with
  | (true, w1) =>
    match GetRawConn env fuel m.sourceConfig w1 with
    | none => none
    | some (_, some e, w2) => some { conn := none, err := some e, manager := m, world := w2 }
    | some (none, none, _) => none
    | some (some c, none, w2) =>
      let err := env.StartReplication c m.replicationSlot 0 (-1)
      let w3 := w2.emit (.startReplication c m.replicationSlot 0 (-1) err)
      match err with
      | some e => some { conn := none, err := some e, manager := m, world := w3 }
      | none =>
        some { conn := some c, err := none, manager := { m with conn := some c }, world := w3 }
  | (false, w1) => some { conn := m.conn, err := none, manager := m, world := w1 }

/-- `Manager.Close`. -/
def Close (m : Manager) (w : World) : Manager × World :=
  match m.conn with
  | none => (m, w)
  | some c => ({ m with conn := none }, w.emit (.close c))

/-- Calling `Close` `n` times in a row. -/
def closeTimes : Nat → Manager → World → Manager × World
  | 0, m, w => (m, w)
  | n + 1, m, w => closeTimes n (Close m w).1 (Close m w).2

/-- The events of `w2` that came after those of `w1`. -/
def newEvents (w1 w2 : World) : List Event :=
  w2.trace.drop w1.trace.length

/-- Entry into the dial factory `GetRawConn`. -/
def Event.isDial : Event → Bool
  | .getRawConn _ => true
  | _ => false

/-- A dial attempt `pgx.ReplicationConnect`. -/
def Event.isAttempt : Event → Bool
  | .replicationConnect _ _ _ => true
  | _ => false

/-- A call of `StartReplication`. -/
def Event.isStart : Event → Bool
  | .startReplication _ _ _ _ _ => true
  | _ => false

/-- A call of `Close`. -/
def Event.isClose : Event → Bool
  | .close _ => true
  | _ => false

/-- A call of `StartReplication` on the connection `c`. -/
def Event.isStartOn (c : ConnId) : Event → Bool
  | .startReplication d _ _ _ _ => d == c
  | _ => false

/-- The events of the `i`-th dial attempt: the log line, then the dial. -/
def attemptEvents (env : Env) (cfg : ConnConfig) (next : ConnId) (i : Nat) : List Event :=
  [ .log cfg.Host cfg.Port,
    match env.ReplicationConnect i with
    | some e => .replicationConnect cfg none (some e)
    | none => .replicationConnect cfg (some next) none ]

/-- The events of the attempts `i, i+1, ..., i+n-1`, all dialing while `next`
is the next unused identity. -/
def attemptsFrom (env : Env) (cfg : ConnConfig) (next : ConnId) (i : Nat) : Nat → List Event
  | 0 => []
  | n + 1 => attemptEvents env cfg next i ++ attemptsFrom env cfg next (i + 1) n

/-- The events the retry loop produces: log lines and dial attempts. -/
def Event.isRetryEvent : Event → Bool
  | .log _ _ => true
  | .replicationConnect _ _ _ => true
  | _ => false

/-- How a result of `GetRawConn` relates to the world `w` it started in: the
trace grew by the entry event and events `evs` of the retry loop; on success
the connection is the new one, on failure there is none. -/
def RawShape (cfg : ConnConfig) (w : World) (c : Option ConnId) (e : Option Err)
    (w2 : World) (evs : List Event) : Prop :=
  w2.trace = w.trace ++ Event.getRawConn cfg :: evs ∧
  (∀ ev ∈ evs, ev.isRetryEvent = true) ∧
  ((e = none ∧ c = some w.nextConn ∧ w2.nextConn = w.nextConn + 1 ∧
      Event.replicationConnect cfg (some w.nextConn) none ∈ evs) ∨
    (e ≠ none ∧ c = none ∧ w2.nextConn = w.nextConn))

/-- The events of the liveness check at the start of `GetConn`. -/
def preEvents (env : Env) (m : Manager) : List Event :=
  match m.conn with
  | none => []
  | some c => [.isAlive c (env.IsAlive c)]

/-- The world in which `GetConn` goes on after the liveness check. -/
def afterCheck (env : Env) (m : Manager) (w : World) : World :=
  (needsConn env m w).2

/-- The four ways a call of `GetConn` in manager `m` and world `w` can end
with result `r`. -/
inductive GetConnCase (env : Env) (fuel : Nat) (m : Manager) (w : World)
    (r : GetConnResult) : Prop where
  /-- The cached connection is alive and is returned. -/
  | cached (c : ConnId) (hc : m.conn = some c) (ha : env.IsAlive c = true)
      (hr : r = { conn := some c, err := none, manager := m,
                  world := w.emit (.isAlive c true) })
  /-- The dial factory failed. -/
  | dialErr (cr : Option ConnId) (e : Err) (w2 : World)
      (hd : ∀ c, m.conn = some c → env.IsAlive c = false)
      (hraw : GetRawConn env fuel m.sourceConfig (afterCheck env m w) = some (cr, some e, w2))
      (hr : r = { conn := none, err := some e, manager := m, world := w2 })
  /-- The dial factory succeeded and `StartReplication` failed. -/
  | startErr (c : ConnId) (e : Err) (w2 : World)
      (hd : ∀ c, m.conn = some c → env.IsAlive c = false)
      (hraw : GetRawConn env fuel m.sourceConfig (afterCheck env m w) = some (some c, none, w2))
      (hs : env.StartReplication c m.replicationSlot 0 (-1) = some e)
      (hr : r = { conn := none, err := some e, manager := m,
                  world := w2.emit (.startReplication c m.replicationSlot 0 (-1) (some e)) })
  /-- The dial factory and `StartReplication` both succeeded. -/
  | fresh (c : ConnId) (w2 : World)
      (hd : ∀ c, m.conn = some c → env.IsAlive c = false)
      (hraw : GetRawConn env fuel m.sourceConfig (afterCheck env m w) = some (some c, none, w2))
      (hs : env.StartReplication c m.replicationSlot 0 (-1) = none)
      (hr : r = { conn := some c, err := none, manager := { m with conn := some c },
                  world := w2.emit (.startReplication c m.replicationSlot 0 (-1) none) })

/-- The states a manager made by `NewManager cfg slot`, in a world where
nothing has happened yet, can reach through calls of `GetConn` and `Close`,
whatever the collaborators answer. -/
inductive Reachable (cfg : ConnConfig) (slot : String) : Manager → World → Prop where
  /-- The manager fresh from `NewManager`. -/
  | init : Reachable cfg slot (NewManager cfg slot) World.init
  /-- A call of `GetConn` that returns. -/
  | getConn (env : Env) (fuel : Nat) (m : Manager) (w : World) (r : GetConnResult) :
      Reachable cfg slot m w → GetConn env fuel m w = some r →
      Reachable cfg slot r.manager r.world
  /-- A call of `Close`. -/
  | close (m : Manager) (w : World) :
      Reachable cfg slot m w → Reachable cfg slot (Close m w).1 (Close m w).2

/-- The invariant of the cache: `StartReplication` has only been called on
connections that exist, and the cached connection, if any, came out of a dial
with the manager's configuration and has had `StartReplication` called on it
exactly once, with the manager's slot, successfully. -/
def CacheInv (m : Manager) (w : World) : Prop :=
  (∀ ev ∈ w.trace, ∀ c, ev.isStartOn c = true → c < w.nextConn) ∧
  ∀ c, m.conn = some c →
    c < w.nextConn ∧
    Event.replicationConnect m.sourceConfig (some c) none ∈ w.trace ∧
    Event.startReplication c m.replicationSlot 0 (-1) none ∈ w.trace ∧
    w.trace.countP (Event.isStartOn c) = 1

/-! ## Concrete inputs -/

/-- A source configuration. -/
def exConfig : ConnConfig :=
  { Host := "db.internal", Port := 5432, User := "repl", Password := "pw", Database := "app" }

/-- A manager fresh from `NewManager`. -/
def exManager : Manager := NewManager exConfig "slot_a"

/-- A manager that caches connection `0`. -/
def exCached : Manager := { exManager with conn := some 0 }

/-- A world in which connection `0` has been dialed and started. -/
def exWorld1 : World :=
  { nextConn := 1
    trace :=
      [ .getRawConn exConfig, .log "db.internal" 5432,
        .replicationConnect exConfig (some 0) none,
        .startReplication 0 "slot_a" 0 (-1) none ] }

/-- Everything succeeds, every connection is alive. -/
def envOk : Env :=
  { IsAlive := fun _ => true
    ReplicationConnect := fun _ => none
    GetElapsedTime := fun i => (i + 1) * Second
    StartReplication := fun _ _ _ _ => none }

/-- Connections are dead, the dial succeeds, `StartReplication` fails. -/
def envStartFails : Env :=
  { IsAlive := fun _ => false
    ReplicationConnect := fun _ => none
    GetElapsedTime := fun i => (i + 1) * Second
    StartReplication := fun _ _ _ _ => some "replication slot does not exist" }

/-- Connections are dead and every dial fails; the elapsed time read after
the attempts is 8s, 16s, 24s, ... -/
def envDown : Env :=
  { IsAlive := fun _ => false
    ReplicationConnect := fun i => some (if i = 2 then "timeout" else "connection refused")
    GetElapsedTime := fun i => (i + 1) * (8 * Second)
    StartReplication := fun _ _ _ _ => none }

/-- Connections are dead; the dial fails twice and succeeds the third time,
one second apart; `StartReplication` succeeds. -/
def envThird : Env :=
  { IsAlive := fun _ => false
    ReplicationConnect := fun i => if i < 2 then some "connection refused" else none
    GetElapsedTime := fun i => (i + 1) * Second
    StartReplication := fun _ _ _ _ => none }

/-! ## The retry loop -/

theorem operation_fail (env : Env) (cfg : ConnConfig) (s : RawState) (e : Err)
    (h : env.ReplicationConnect s.calls = some e) :
    operation env cfg s =
      (some e,
        { conn := none, err := some e, calls := s.calls + 1,
          world :=
            { nextConn := s.world.nextConn
              trace := s.world.trace ++ attemptEvents env cfg s.world.nextConn s.calls } }) := by
  simp [operation, ReplicationConnect, World.emit, attemptEvents, h]

theorem operation_ok (env : Env) (cfg : ConnConfig) (s : RawState)
    (h : env.ReplicationConnect s.calls = none) :
    operation env cfg s =
      (none,
        { conn := some s.world.nextConn, err := none, calls := s.calls + 1,
          world :=
            { nextConn := s.world.nextConn + 1
              trace := s.world.trace ++ attemptEvents env cfg s.world.nextConn s.calls } }) := by
  simp [operation, ReplicationConnect, World.emit, attemptEvents, h]

/-- The loop skips over `n` failed attempts that stay within the budget. -/
theorem retry_skip (env : Env) (cfg : ConnConfig) (maxT : Nat) :
    ∀ (n fuel i : Nat) (s : RawState),
      (∀ j, j < n → env.ReplicationConnect (s.calls + j) ≠ none ∧
        env.GetElapsedTime (i + j) ≤ maxT) →
      Retry (operation env cfg) env.GetElapsedTime maxT (n + fuel) i s =
        Retry (operation env cfg) env.GetElapsedTime maxT fuel (i + n)
          { conn := if n = 0 then s.conn else none
            err := if n = 0 then s.err else env.ReplicationConnect (s.calls + (n - 1))
            calls := s.calls + n
            world :=
              { nextConn := s.world.nextConn
                trace := s.world.trace ++ attemptsFrom env cfg s.world.nextConn s.calls n } } := by
  intro n
  induction n with
  | zero =>
    intro fuel i s _
    simp [attemptsFrom]
  | succ n ih =>
    intro fuel i s h
    have h0 := h 0 (Nat.succ_pos n)
    obtain ⟨e, he⟩ := Option.ne_none_iff_exists'.mp h0.1
    have he0 : env.ReplicationConnect s.calls = some e := by simpa using he
    have hle : ¬ env.GetElapsedTime i > maxT := by
      have := h0.2
      simp at this
      omega
    have hfuel : n + 1 + fuel = (n + fuel) + 1 := by omega
    rw [hfuel, Retry, operation_fail env cfg s e he0]
    simp only [hle, if_false]
    rw [ih]
    · congr 1
      · omega
      · rcases Nat.eq_zero_or_pos n with hn | hn
        · subst hn
          simp [attemptsFrom, he0]
        · have h1 : s.calls + 1 + (n - 1) = s.calls + (n + 1 - 1) := by omega
          have hn0 : n ≠ 0 := by omega
          simp [hn0, h1, attemptsFrom, Nat.add_assoc]
          omega
    · intro j hj
      have := h (j + 1) (by omega)
      have e1 : s.calls + 1 + j = s.calls + (j + 1) := by omega
      have e2 : i + 1 + j = i + (j + 1) := by omega
      simpa [e1, e2] using this

theorem attemptEvents_retry (env : Env) (cfg : ConnConfig) (next : ConnId) (i : Nat) :
    ∀ ev ∈ attemptEvents env cfg next i, ev.isRetryEvent = true := by
  intro ev hev
  unfold attemptEvents at hev
  cases h : env.ReplicationConnect i <;> simp [h] at hev <;>
    rcases hev with rfl | rfl <;> rfl

/-- Whatever the loop returns, it only logged and dialed, and it returns nil
exactly when its last dial produced a new connection. -/
theorem retry_shape (env : Env) (cfg : ConnConfig) (maxT : Nat) :
    ∀ (fuel i : Nat) (s : RawState) (r : Option Err) (s2 : RawState),
      Retry (operation env cfg) env.GetElapsedTime maxT fuel i s = some (r, s2) →
      ∃ evs, s2.world.trace = s.world.trace ++ evs ∧
        (∀ ev ∈ evs, ev.isRetryEvent = true) ∧
        ((r = none ∧ s2.conn = some s.world.nextConn ∧
            s2.world.nextConn = s.world.nextConn + 1 ∧
            Event.replicationConnect cfg (some s.world.nextConn) none ∈ evs) ∨
          (r ≠ none ∧ s2.world.nextConn = s.world.nextConn)) := by
  intro fuel
  induction fuel with
  | zero =>
    intro i s r s2 h
    simp [Retry] at h
  | succ fuel ih =>
    intro i s r s2 h
    cases hc : env.ReplicationConnect s.calls with
    | none =>
      rw [Retry, operation_ok env cfg s hc] at h
      simp only [Option.some.injEq, Prod.mk.injEq] at h
      obtain ⟨hr, hs⟩ := h
      subst hr
      subst hs
      refine ⟨attemptEvents env cfg s.world.nextConn s.calls, rfl,
        attemptEvents_retry env cfg _ _, Or.inl ⟨rfl, rfl, rfl, ?_⟩⟩
      simp [attemptEvents, hc]
    | some e =>
      rw [Retry, operation_fail env cfg s e hc] at h
      by_cases ht : env.GetElapsedTime i > maxT
      · simp only [ht, if_true, Option.some.injEq, Prod.mk.injEq] at h
        obtain ⟨hr, hs⟩ := h
        subst hr
        subst hs
        exact ⟨attemptEvents env cfg s.world.nextConn s.calls, rfl,
          attemptEvents_retry env cfg _ _, Or.inr ⟨by simp, rfl⟩⟩
      · simp only [ht, if_false] at h
        obtain ⟨evs, htr, hall, hcase⟩ := ih _ _ _ _ h
        refine ⟨attemptEvents env cfg s.world.nextConn s.calls ++ evs, ?_, ?_, ?_⟩
        · simpa [List.append_assoc] using htr
        · intro ev hev
          rcases List.mem_append.mp hev with h1 | h1
          · exact attemptEvents_retry env cfg _ _ ev h1
          · exact hall ev h1
        · rcases hcase with ⟨h1, h2, h3, h4⟩ | ⟨h1, h2⟩
          · exact Or.inl ⟨h1, h2, h3, List.mem_append.mpr (Or.inr h4)⟩
          · exact Or.inr ⟨h1, h2⟩

/-- Every result of `GetRawConn` has the shape `RawShape`. -/
theorem getRawConn_shape (env : Env) (fuel : Nat) (cfg : ConnConfig) (w : World)
    (c : Option ConnId) (e : Option Err) (w2 : World)
    (h : GetRawConn env fuel cfg w = some (c, e, w2)) :
    ∃ evs, RawShape cfg w c e w2 evs := by
  unfold GetRawConn at h
  simp only at h
  split at h
  · exact absurd h (by simp)
  · rename_i e1 s hr
    simp only [Option.some.injEq, Prod.mk.injEq] at h
    obtain ⟨hc, he, hw⟩ := h
    obtain ⟨evs, htr, hall, hcase⟩ := retry_shape env cfg _ _ _ _ _ _ hr
    refine ⟨evs, ?_, hall, Or.inr ⟨by simp [← he], hc.symm, ?_⟩⟩
    · rw [← hw, htr]
      simp [World.emit]
    · rcases hcase with ⟨h1, _⟩ | ⟨_, h2⟩
      · exact absurd h1 (by simp)
      · rw [← hw, h2]
        rfl
  · rename_i s hr
    simp only [Option.some.injEq, Prod.mk.injEq] at h
    obtain ⟨hc, he, hw⟩ := h
    obtain ⟨evs, htr, hall, hcase⟩ := retry_shape env cfg _ _ _ _ _ _ hr
    rcases hcase with ⟨_, h2, h3, h4⟩ | ⟨h1, _⟩
    · refine ⟨evs, ?_, hall, Or.inl ⟨he.symm, ?_, ?_, ?_⟩⟩
      · rw [← hw, htr]
        simp [World.emit]
      · rw [← hc, h2]
        rfl
      · rw [← hw, h3]
        rfl
      · simpa [World.emit] using h4
    · exact absurd rfl h1

/-! ## GetConn, case by case -/

theorem newEvents_append (w w2 : World) (evs : List Event)
    (h : w2.trace = w.trace ++ evs) : newEvents w w2 = evs := by
  simp [newEvents, h]

theorem afterCheck_eq (env : Env) (m : Manager) (w : World) :
    afterCheck env m w = { nextConn := w.nextConn, trace := w.trace ++ preEvents env m } := by
  unfold afterCheck needsConn preEvents
  cases m.conn <;> simp [World.emit]

theorem needsConn_dead (env : Env) (m : Manager) (w : World)
    (hd : ∀ c, m.conn = some c → env.IsAlive c = false) :
    needsConn env m w = (true, afterCheck env m w) := by
  unfold afterCheck needsConn
  cases hc : m.conn with
  | none => rfl
  | some c => simp [hd c hc]

theorem getConn_alive (env : Env) (fuel : Nat) (m : Manager) (w : World) (c : ConnId)
    (hc : m.conn = some c) (ha : env.IsAlive c = true) :
    GetConn env fuel m w =
      some { conn := some c, err := none, manager := m, world := w.emit (.isAlive c true) } := by
  simp [GetConn, needsConn, hc, ha]

theorem getConn_dial_err (env : Env) (fuel : Nat) (m : Manager) (w : World)
    (hd : ∀ c, m.conn = some c → env.IsAlive c = false)
    (cr : Option ConnId) (e : Err) (w2 : World)
    (hraw : GetRawConn env fuel m.sourceConfig (afterCheck env m w) = some (cr, some e, w2)) :
    GetConn env fuel m w = some { conn := none, err := some e, manager := m, world := w2 } := by
  unfold GetConn
  rw [needsConn_dead env m w hd]
  simp only [hraw]

theorem getConn_start_err (env : Env) (fuel : Nat) (m : Manager) (w : World)
    (hd : ∀ c, m.conn = some c → env.IsAlive c = false)
    (c : ConnId) (e : Err) (w2 : World)
    (hraw : GetRawConn env fuel m.sourceConfig (afterCheck env m w) = some (some c, none, w2))
    (hs : env.StartReplication c m.replicationSlot 0 (-1) = some e) :
    GetConn env fuel m w =
      some { conn := none, err := some e, manager := m,
             world := w2.emit (.startReplication c m.replicationSlot 0 (-1) (some e)) } := by
  unfold GetConn
  rw [needsConn_dead env m w hd]
  simp only [hraw, hs]

theorem getConn_fresh (env : Env) (fuel : Nat) (m : Manager) (w : World)
    (hd : ∀ c, m.conn = some c → env.IsAlive c = false)
    (c : ConnId) (w2 : World)
    (hraw : GetRawConn env fuel m.sourceConfig (afterCheck env m w) = some (some c, none, w2))
    (hs : env.StartReplication c m.replicationSlot 0 (-1) = none) :
    GetConn env fuel m w =
      some { conn := some c, err := none, manager := { m with conn := some c },
             world := w2.emit (.startReplication c m.replicationSlot 0 (-1) none) } := by
  unfold GetConn
  rw [needsConn_dead env m w hd]
  simp only [hraw, hs]

/-- Every result of `GetConn` arises in one of the four ways. -/
theorem getConn_cases (env : Env) (fuel : Nat) (m : Manager) (w : World) (r : GetConnResult)
    (h : GetConn env fuel m w = some r) : GetConnCase env fuel m w r := by
  by_cases hd : ∀ c, m.conn = some c → env.IsAlive c = false
  · cases hraw : GetRawConn env fuel m.sourceConfig (afterCheck env m w) with
    | none =>
      unfold GetConn at h
      rw [needsConn_dead env m w hd] at h
      simp [hraw] at h
    | some res =>
      obtain ⟨cr, er, w2⟩ := res
      cases er with
      | some e =>
        rw [getConn_dial_err env fuel m w hd cr e w2 hraw] at h
        exact .dialErr cr e w2 hd hraw (Option.some.inj h).symm
      | none =>
        cases cr with
        | none =>
          unfold GetConn at h
          rw [needsConn_dead env m w hd] at h
          simp [hraw] at h
        | some c =>
          cases hs : env.StartReplication c m.replicationSlot 0 (-1) with
          | some e =>
            rw [getConn_start_err env fuel m w hd c e w2 hraw hs] at h
            exact .startErr c e w2 hd hraw hs (Option.some.inj h).symm
          | none =>
            rw [getConn_fresh env fuel m w hd c w2 hraw hs] at h
            exact .fresh c w2 hd hraw hs (Option.some.inj h).symm
  · push_neg at hd
    obtain ⟨c, hc, ha⟩ := hd
    have ha2 : env.IsAlive c = true := by simpa using ha
    rw [getConn_alive env fuel m w c hc ha2] at h
    exact .cached c hc ha2 (Option.some.inj h).symm

/-! ## Counting calls -/

theorem retryEvent_not_dial (ev : Event) (h : ev.isRetryEvent = true) : ev.isDial = false := by
  cases ev <;> simp_all [Event.isRetryEvent, Event.isDial]

theorem retryEvent_not_start (ev : Event) (h : ev.isRetryEvent = true) : ev.isStart = false := by
  cases ev <;> simp_all [Event.isRetryEvent, Event.isStart]

theorem retryEvent_not_close (ev : Event) (h : ev.isRetryEvent = true) : ev.isClose = false := by
  cases ev <;> simp_all [Event.isRetryEvent, Event.isClose]

theorem retryEvent_not_startOn (c : ConnId) (ev : Event) (h : ev.isRetryEvent = true) :
    ev.isStartOn c = false := by
  cases ev <;> simp_all [Event.isRetryEvent, Event.isStartOn]

theorem preEvents_not_dial (env : Env) (m : Manager) :
    ∀ ev ∈ preEvents env m, ev.isDial = false := by
  intro ev hev
  unfold preEvents at hev
  cases hc : m.conn <;> simp [hc] at hev
  subst hev
  rfl

theorem preEvents_not_start (env : Env) (m : Manager) :
    ∀ ev ∈ preEvents env m, ev.isStart = false := by
  intro ev hev
  unfold preEvents at hev
  cases hc : m.conn <;> simp [hc] at hev
  subst hev
  rfl

theorem preEvents_not_close (env : Env) (m : Manager) :
    ∀ ev ∈ preEvents env m, ev.isClose = false := by
  intro ev hev
  unfold preEvents at hev
  cases hc : m.conn <;> simp [hc] at hev
  subst hev
  rfl

theorem preEvents_not_startOn (env : Env) (m : Manager) (c : ConnId) :
    ∀ ev ∈ preEvents env m, ev.isStartOn c = false := by
  intro ev hev
  unfold preEvents at hev
  cases hc : m.conn <;> simp [hc] at hev
  subst hev
  rfl

theorem countP_zero_of_false (p : Event → Bool) (l : List Event)
    (h : ∀ ev ∈ l, p ev = false) : l.countP p = 0 := by
  rw [List.countP_eq_zero]
  intro ev hev
  simp [h ev hev]

/-- The events of a reconnecting `GetConn` up to the end of the dial factory. -/
theorem raw_trace (env : Env) (m : Manager) (w : World) (c : Option ConnId) (e : Option Err)
    (w2 : World) (evs : List Event)
    (h : RawShape m.sourceConfig (afterCheck env m w) c e w2 evs) :
    w2.trace = w.trace ++ (preEvents env m ++ Event.getRawConn m.sourceConfig :: evs) := by
  rw [h.1, afterCheck_eq]
  simp [List.append_assoc]

/-- Counting in a reconnecting `GetConn`: the liveness check, the entry into
the dial factory, the retry loop, and what follows. -/
theorem countP_reconnect (p : Event → Bool) (pre evs rest : List Event) (cfg : ConnConfig)
    (hpre : ∀ ev ∈ pre, p ev = false) (hevs : ∀ ev ∈ evs, p ev = false) :
    (pre ++ Event.getRawConn cfg :: evs ++ rest).countP p =
      (if p (Event.getRawConn cfg) then 1 else 0) + rest.countP p := by
  rw [List.countP_append, List.countP_append, List.countP_cons,
    countP_zero_of_false p pre hpre, countP_zero_of_false p evs hevs]
  simp

/-! ## Reuse of a live connection -/

/-- A successful `GetConn` returns the connection the manager caches. -/
theorem getConn_success_cached (env : Env) (fuel : Nat) (m : Manager) (w : World)
    (r : GetConnResult) (h : GetConn env fuel m w = some r) (he : r.err = none) :
    ∃ c, r.conn = some c ∧ r.manager.conn = some c := by
  cases getConn_cases env fuel m w r h with
  | cached c hc ha hr => exact ⟨c, by simp [hr], by simp [hr, hc]⟩
  | dialErr cr e w2 hd hraw hr => simp [hr] at he
  | startErr c e w2 hd hraw hs hr => simp [hr] at he
  | fresh c w2 hd hraw hs hr => exact ⟨c, by simp [hr], by simp [hr]⟩

/-- C1: when the cached connection is present and alive, `GetConn` returns
exactly it with a nil error, the only call made is the liveness check (no
entry into `GetRawConn`, no dial attempt, no `StartReplication`), and the
manager is unchanged.  Hence, after any successful `GetConn`, a second
`GetConn` in which the returned connection reports alive returns the identical
connection, keeps the manager and does not dial. -/
theorem getConn_cached_alive (env : Env) (fuel : Nat) (m : Manager) (w : World) (c : ConnId)
    (hc : m.conn = some c) (ha : env.IsAlive c = true) :
    (∃ r, GetConn env fuel m w = some r ∧ r.conn = some c ∧ r.err = none ∧ r.manager = m ∧
      r.world.nextConn = w.nextConn ∧
      newEvents w r.world = [Event.isAlive c true] ∧
      (newEvents w r.world).countP Event.isDial = 0 ∧
      (newEvents w r.world).countP Event.isAttempt = 0 ∧
      (newEvents w r.world).countP Event.isStart = 0) ∧
    (∀ (env1 : Env) (fuel1 : Nat) (m1 : Manager) (w1 : World) (r1 : GetConnResult),
      GetConn env1 fuel1 m1 w1 = some r1 → r1.err = none →
      ∀ (env2 : Env) (fuel2 : Nat), (∀ d, r1.conn = some d → env2.IsAlive d = true) →
        ∃ r2, GetConn env2 fuel2 r1.manager r1.world = some r2 ∧ r2.conn = r1.conn ∧
          r2.err = none ∧ r2.manager = r1.manager ∧
          (newEvents r1.world r2.world).countP Event.isDial = 0 ∧
          (newEvents r1.world r2.world).countP Event.isAttempt = 0) := by
  refine ⟨⟨_, getConn_alive env fuel m w c hc ha, rfl, rfl, rfl, rfl, ?_⟩, ?_⟩
  · have hn : newEvents w (w.emit (Event.isAlive c true)) = [Event.isAlive c true] :=
      newEvents_append _ _ _ rfl
    simp [hn, Event.isDial, Event.isAttempt, Event.isStart]
  · intro env1 fuel1 m1 w1 r1 h1 he env2 fuel2 hal
    obtain ⟨d, hd1, hd2⟩ := getConn_success_cached env1 fuel1 m1 w1 r1 h1 he
    refine ⟨_, getConn_alive env2 fuel2 r1.manager r1.world d hd2 (hal d hd1),
      hd1.symm, rfl, rfl, ?_⟩
    have hn : newEvents r1.world (r1.world.emit (Event.isAlive d true)) =
        [Event.isAlive d true] := newEvents_append _ _ _ rfl
    simp [hn, Event.isDial, Event.isAttempt]

/-- C1 at a concrete input: the manager caches connection `0`, which is alive. -/
theorem getConn_cached_alive_witness :
    exCached.conn = some 0 ∧ envOk.IsAlive 0 = true ∧
    ∃ r, GetConn envOk 0 exCached exWorld1 = some r ∧ r.conn = some 0 ∧ r.err = none ∧
      r.manager = exCached ∧ newEvents exWorld1 r.world = [Event.isAlive 0 true] := by
  obtain ⟨⟨r, h1, h2, h3, h4, _, h5, _⟩, _⟩ :=
    getConn_cached_alive envOk 0 exCached exWorld1 0 rfl rfl
  exact ⟨rfl, rfl, r, h1, h2, h3, h4, h5⟩

/-! ## Reconnecting -/

theorem reconnect_newEvents (env : Env) (m : Manager) (w : World) (c : Option ConnId)
    (e : Option Err) (w2 : World) (evs : List Event) (x : Event)
    (h : RawShape m.sourceConfig (afterCheck env m w) c e w2 evs) :
    newEvents w (w2.emit x) =
      preEvents env m ++ Event.getRawConn m.sourceConfig :: evs ++ [x] := by
  apply newEvents_append
  simp [World.emit, raw_trace env m w c e w2 evs h, List.append_assoc]

theorem reconnect_newEvents_nil (env : Env) (m : Manager) (w : World) (c : Option ConnId)
    (e : Option Err) (w2 : World) (evs : List Event)
    (h : RawShape m.sourceConfig (afterCheck env m w) c e w2 evs) :
    newEvents w w2 = preEvents env m ++ Event.getRawConn m.sourceConfig :: evs ++ [] := by
  apply newEvents_append
  simp [raw_trace env m w c e w2 evs h]

/-- C5: when no live connection is cached, the dial factory gives connection
`c` and `StartReplication` succeeds, `GetConn` returns `(c, nil)` and caches
`c`.  Its calls are, in this order: the liveness check if a connection was
cached, one entry into `GetRawConn` with the manager's source configuration,
the retry loop's log lines and dial attempts (one of which produced `c`), and
last one `StartReplication` on `c` with the manager's slot, start position `0`
and third argument `-1`. -/
theorem getConn_reconnect_success (env : Env) (fuel : Nat) (m : Manager) (w : World)
    (c : ConnId) (w2 : World)
    (hd : ∀ d, m.conn = some d → env.IsAlive d = false)
    (hraw : GetRawConn env fuel m.sourceConfig (afterCheck env m w) = some (some c, none, w2))
    (hs : env.StartReplication c m.replicationSlot 0 (-1) = none) :
    ∃ r evs, GetConn env fuel m w = some r ∧ r.conn = some c ∧ r.err = none ∧
      r.manager = { m with conn := some c } ∧
      newEvents w r.world =
        preEvents env m ++ Event.getRawConn m.sourceConfig :: evs ++
          [Event.startReplication c m.replicationSlot 0 (-1) none] ∧
      (∀ ev ∈ evs, ev.isRetryEvent = true) ∧
      Event.replicationConnect m.sourceConfig (some c) none ∈ evs ∧
      (newEvents w r.world).countP Event.isDial = 1 ∧
      (newEvents w r.world).countP Event.isStart = 1 := by
  obtain ⟨evs, hsh⟩ := getRawConn_shape env fuel _ _ _ _ _ hraw
  have hev := reconnect_newEvents env m w _ _ w2 evs
    (Event.startReplication c m.replicationSlot 0 (-1) none) hsh
  have hmem : Event.replicationConnect m.sourceConfig (some c) none ∈ evs := by
    rcases hsh.2.2 with ⟨_, h2, _, h4⟩ | ⟨h1, _⟩
    · have hcn : c = (afterCheck env m w).nextConn := Option.some.inj h2
      rw [hcn]
      exact h4
    · exact absurd rfl h1
  refine ⟨_, evs, getConn_fresh env fuel m w hd c w2 hraw hs, rfl, rfl, rfl, hev, hsh.2.1,
    hmem, ?_, ?_⟩
  · simp only [hev]
    rw [countP_reconnect Event.isDial _ _ _ _ (preEvents_not_dial env m)
      (fun ev h => retryEvent_not_dial ev (hsh.2.1 ev h))]
    rfl
  · simp only [hev]
    rw [countP_reconnect Event.isStart _ _ _ _ (preEvents_not_start env m)
      (fun ev h => retryEvent_not_start ev (hsh.2.1 ev h))]
    rfl

/-- C5 at a concrete input: a fresh manager, the first dial succeeds. -/
theorem getConn_reconnect_success_witness :
    GetRawConn envOk 1 exManager.sourceConfig (afterCheck envOk exManager World.init) =
      some (some 0, none,
        { nextConn := 1
          trace := [Event.getRawConn exConfig, Event.log "db.internal" 5432,
            Event.replicationConnect exConfig (some 0) none] }) ∧
    ∃ r evs, GetConn envOk 1 exManager World.init = some r ∧ r.conn = some 0 ∧ r.err = none ∧
      r.manager = exCached ∧
      newEvents World.init r.world =
        preEvents envOk exManager ++ Event.getRawConn exConfig :: evs ++
          [Event.startReplication 0 "slot_a" 0 (-1) none] := by
  have hraw : GetRawConn envOk 1 exManager.sourceConfig
      (afterCheck envOk exManager World.init) =
      some (some 0, none,
        { nextConn := 1
          trace := [Event.getRawConn exConfig, Event.log "db.internal" 5432,
            Event.replicationConnect exConfig (some 0) none] }) := by
    decide
  refine ⟨hraw, ?_⟩
  obtain ⟨r, evs, h1, h2, h3, h4, h5, _⟩ :=
    getConn_reconnect_success envOk 1 exManager World.init 0 _
      (by intro d hd; exact absurd hd (by simp [exManager, NewManager])) hraw rfl
  exact ⟨r, evs, h1, h2, h3, h4, h5⟩

/-- C3: when no live connection is cached, the dial factory gives a
connection and `StartReplication` on it fails with `e`, `GetConn` returns
`(nil, e)`, having entered `GetRawConn` once and called `StartReplication`
once; the failed `StartReplication` is the last call made, so nothing is
retried and nothing is dialed after it. -/
theorem getConn_start_failure (env : Env) (fuel : Nat) (m : Manager) (w : World)
    (c : ConnId) (e : Err) (w2 : World)
    (hd : ∀ d, m.conn = some d → env.IsAlive d = false)
    (hraw : GetRawConn env fuel m.sourceConfig (afterCheck env m w) = some (some c, none, w2))
    (hs : env.StartReplication c m.replicationSlot 0 (-1) = some e) :
    ∃ r evs, GetConn env fuel m w = some r ∧ r.conn = none ∧ r.err = some e ∧
      newEvents w r.world =
        preEvents env m ++ Event.getRawConn m.sourceConfig :: evs ++
          [Event.startReplication c m.replicationSlot 0 (-1) (some e)] ∧
      (∀ ev ∈ evs, ev.isRetryEvent = true) ∧
      (newEvents w r.world).countP Event.isDial = 1 ∧
      (newEvents w r.world).countP Event.isStart = 1 := by
  obtain ⟨evs, hsh⟩ := getRawConn_shape env fuel _ _ _ _ _ hraw
  have hev := reconnect_newEvents env m w _ _ w2 evs
    (Event.startReplication c m.replicationSlot 0 (-1) (some e)) hsh
  refine ⟨_, evs, getConn_start_err env fuel m w hd c e w2 hraw hs, rfl, rfl, hev, hsh.2.1,
    ?_, ?_⟩
  · simp only [hev]
    rw [countP_reconnect Event.isDial _ _ _ _ (preEvents_not_dial env m)
      (fun ev h => retryEvent_not_dial ev (hsh.2.1 ev h))]
    rfl
  · simp only [hev]
    rw [countP_reconnect Event.isStart _ _ _ _ (preEvents_not_start env m)
      (fun ev h => retryEvent_not_start ev (hsh.2.1 ev h))]
    rfl

/-- C3 at a concrete input: the cached connection `0` is dead, the dial gives
connection `1`, and `StartReplication` fails. -/
theorem getConn_start_failure_witness :
    envStartFails.StartReplication 1 exCached.replicationSlot 0 (-1) =
      some "replication slot does not exist" ∧
    ∃ r evs, GetConn envStartFails 1 exCached exWorld1 = some r ∧ r.conn = none ∧
      r.err = some "replication slot does not exist" ∧
      newEvents exWorld1 r.world =
        preEvents envStartFails exCached ++ Event.getRawConn exConfig :: evs ++
          [Event.startReplication 1 "slot_a" 0 (-1)
            (some "replication slot does not exist")] := by
  refine ⟨rfl, ?_⟩
  obtain ⟨r, evs, h1, h2, h3, h4, _⟩ :=
    getConn_start_failure envStartFails 1 exCached exWorld1 1
      "replication slot does not exist" _
      (by intro d _; rfl) (by decide : _ = some (some 1, none,
        { nextConn := 2
          trace := exWorld1.trace ++ [Event.isAlive 0 false, Event.getRawConn exConfig,
            Event.log "db.internal" 5432,
            Event.replicationConnect exConfig (some 1) none] })) rfl
  exact ⟨r, evs, h1, h2, h3, h4⟩

/-! ## What every call of GetConn does -/

/-- The calls of any `GetConn`: either the liveness check alone, with answer
alive, or the liveness check, the dial factory, and then nothing or one
`StartReplication` on the connection just dialed. -/
theorem getConn_events (env : Env) (fuel : Nat) (m : Manager) (w : World) (r : GetConnResult)
    (h : GetConn env fuel m w = some r) :
    (∃ c, m.conn = some c ∧ newEvents w r.world = [Event.isAlive c true]) ∨
    (∃ evs rest, newEvents w r.world =
        preEvents env m ++ Event.getRawConn m.sourceConfig :: evs ++ rest ∧
      (∀ ev ∈ evs, ev.isRetryEvent = true) ∧
      (rest = [] ∨
        ∃ err, rest = [Event.startReplication w.nextConn m.replicationSlot 0 (-1) err])) := by
  have hnext : (afterCheck env m w).nextConn = w.nextConn := by rw [afterCheck_eq]
  cases getConn_cases env fuel m w r h with
  | cached c hc ha hr =>
    left
    exact ⟨c, hc, by rw [hr]; exact newEvents_append _ _ _ rfl⟩
  | dialErr cr e w2 hd hraw hr =>
    right
    obtain ⟨evs, hsh⟩ := getRawConn_shape env fuel _ _ _ _ _ hraw
    exact ⟨evs, [], by rw [hr]; exact reconnect_newEvents_nil env m w _ _ w2 evs hsh,
      hsh.2.1, Or.inl rfl⟩
  | startErr c e w2 hd hraw hs hr =>
    right
    obtain ⟨evs, hsh⟩ := getRawConn_shape env fuel _ _ _ _ _ hraw
    have hcn : c = w.nextConn := by
      rcases hsh.2.2 with ⟨_, h2, _⟩ | ⟨h1, _⟩
      · rw [← hnext]
        exact Option.some.inj h2
      · exact absurd rfl h1
    refine ⟨evs, _, ?_, hsh.2.1, Or.inr ⟨some e, rfl⟩⟩
    rw [hr, ← hcn]
    exact reconnect_newEvents env m w _ _ w2 evs _ hsh
  | fresh c w2 hd hraw hs hr =>
    right
    obtain ⟨evs, hsh⟩ := getRawConn_shape env fuel _ _ _ _ _ hraw
    have hcn : c = w.nextConn := by
      rcases hsh.2.2 with ⟨_, h2, _⟩ | ⟨h1, _⟩
      · rw [← hnext]
        exact Option.some.inj h2
      · exact absurd rfl h1
    refine ⟨evs, _, ?_, hsh.2.1, Or.inr ⟨none, rfl⟩⟩
    rw [hr, ← hcn]
    exact reconnect_newEvents env m w _ _ w2 evs _ hsh

/-- No call of `GetConn` calls `Close` on anything. -/
theorem getConn_no_close (env : Env) (fuel : Nat) (m : Manager) (w : World) (r : GetConnResult)
    (h : GetConn env fuel m w = some r) :
    (newEvents w r.world).countP Event.isClose = 0 := by
  rcases getConn_events env fuel m w r h with ⟨c, _, hev⟩ | ⟨evs, rest, hev, hall, hrest⟩
  · rw [hev]
    rfl
  · rw [hev, countP_reconnect Event.isClose _ _ _ _ (preEvents_not_close env m)
      (fun ev h => retryEvent_not_close ev (hall ev h))]
    rcases hrest with rfl | ⟨err, rfl⟩ <;> rfl

/-- A connection dialed by `GetConn` is a new one: it is the next unused
identity of the world the call started in. -/
theorem getConn_fresh_conn (env : Env) (fuel : Nat) (m : Manager) (w : World)
    (c : Option ConnId) (e : Option Err) (w2 : World)
    (hraw : GetRawConn env fuel m.sourceConfig (afterCheck env m w) = some (c, e, w2))
    (d : ConnId) (hc : c = some d) : d = w.nextConn := by
  have hnext : (afterCheck env m w).nextConn = w.nextConn := by rw [afterCheck_eq]
  obtain ⟨evs, hsh⟩ := getRawConn_shape env fuel _ _ _ _ _ hraw
  rcases hsh.2.2 with ⟨_, h2, _⟩ | ⟨_, h2, _⟩
  · rw [← hnext]
    rw [hc] at h2
    exact Option.some.inj h2
  · rw [hc] at h2
    exact absurd h2 (by simp)

/-! ## Failures -/

/-- A failed `GetConn` returns no connection and the manager it was given. -/
theorem getConn_error_manager (env : Env) (fuel : Nat) (m : Manager) (w : World)
    (r : GetConnResult) (h : GetConn env fuel m w = some r) (he : r.err ≠ none) :
    r.conn = none ∧ r.manager = m := by
  cases getConn_cases env fuel m w r h with
  | cached c hc ha hr => rw [hr] at he; exact absurd rfl he
  | dialErr cr e w2 hd hraw hr => rw [hr]; exact ⟨rfl, rfl⟩
  | startErr c e w2 hd hraw hs hr => rw [hr]; exact ⟨rfl, rfl⟩
  | fresh c w2 hd hraw hs hr => rw [hr] at he; exact absurd rfl he

/-- C2 fails as stated: the manager caches connection `0`, which reports
not-alive, and every dial fails until the budget is spent.  `GetConn` returns
the last dial error, and the manager still caches connection `0`. -/
theorem getConn_failure_keeps_dead_conn :
    (∀ d, exCached.conn = some d → envDown.IsAlive d = false) ∧
    (GetConn envDown 3 exCached exWorld1).map (fun r => (r.err, r.manager.conn)) =
      some (some "timeout", some 0) := by
  refine ⟨fun _ _ => rfl, ?_⟩
  decide

/-- C2 (amended): when no live connection is cached and `GetConn` fails,
because the dial factory returns an error or because `StartReplication` on the
new connection does, `GetConn` returns that error unchanged with no
connection, and the manager's `conn` field is what it was before the call; it
is absent afterwards when it was absent before. -/
theorem getConn_failure_keeps_cache (env : Env) (fuel : Nat) (m : Manager) (w : World)
    (hd : ∀ d, m.conn = some d → env.IsAlive d = false) :
    (∀ cr e w2,
      GetRawConn env fuel m.sourceConfig (afterCheck env m w) = some (cr, some e, w2) →
      ∃ r, GetConn env fuel m w = some r ∧ r.err = some e ∧ r.conn = none ∧
        r.manager.conn = m.conn) ∧
    (∀ c e w2,
      GetRawConn env fuel m.sourceConfig (afterCheck env m w) = some (some c, none, w2) →
      env.StartReplication c m.replicationSlot 0 (-1) = some e →
      ∃ r, GetConn env fuel m w = some r ∧ r.err = some e ∧ r.conn = none ∧
        r.manager.conn = m.conn) ∧
    (m.conn = none → ∀ r, GetConn env fuel m w = some r → r.err ≠ none →
      r.manager.conn = none) := by
  refine ⟨?_, ?_, ?_⟩
  · intro cr e w2 hraw
    exact ⟨_, getConn_dial_err env fuel m w hd cr e w2 hraw, rfl, rfl, rfl⟩
  · intro c e w2 hraw hs
    exact ⟨_, getConn_start_err env fuel m w hd c e w2 hraw hs, rfl, rfl, rfl⟩
  · intro hn r h he
    cases getConn_cases env fuel m w r h with
    | cached c hc ha hr => rw [hn] at hc; exact absurd hc (by simp)
    | dialErr cr e w2 hd hraw hr => rw [hr]; exact hn
    | startErr c e w2 hd hraw hs hr => rw [hr]; exact hn
    | fresh c w2 hd hraw hs hr => rw [hr] at he; exact absurd rfl he

/-- C2 (amended) at a concrete input: a dead cached connection and dials that
fail until the budget is spent. -/
theorem getConn_failure_keeps_cache_witness :
    ∃ r, GetConn envDown 3 exCached exWorld1 = some r ∧ r.err = some "timeout" ∧
      r.conn = none ∧ r.manager.conn = some 0 := by
  have h := (getConn_failure_keeps_cache envDown 3 exCached exWorld1 (fun _ _ => rfl)).1
    none "timeout"
    { nextConn := 1
      trace := exWorld1.trace ++
        [Event.isAlive 0 false, Event.getRawConn exConfig,
          Event.log "db.internal" 5432,
          Event.replicationConnect exConfig none (some "connection refused"),
          Event.log "db.internal" 5432,
          Event.replicationConnect exConfig none (some "connection refused"),
          Event.log "db.internal" 5432,
          Event.replicationConnect exConfig none (some "timeout")] }
    (by decide)
  exact h

/-- C10: a `GetConn` that returns a non-nil error returns no connection and
leaves the manager as it was, field by field.  It calls `Close` on nothing,
and a connection on which it called `StartReplication` is a newly dialed one,
which the manager does not cache (the cached one, if any, is older). -/
theorem getConn_error_atomic (env : Env) (fuel : Nat) (m : Manager) (w : World)
    (r : GetConnResult) (h : GetConn env fuel m w = some r) (he : r.err ≠ none) :
    r.conn = none ∧ r.manager = m ∧
    r.manager.sourceConfig = m.sourceConfig ∧ r.manager.conn = m.conn ∧
    r.manager.replicationSlot = m.replicationSlot ∧
    (newEvents w r.world).countP Event.isClose = 0 ∧
    (∀ c, (∃ ev ∈ newEvents w r.world, ev.isStartOn c = true) →
      c = w.nextConn ∧ ((∀ d, m.conn = some d → d < w.nextConn) → r.manager.conn ≠ some c)) := by
  have hm := getConn_error_manager env fuel m w r h he
  refine ⟨hm.1, hm.2, by rw [hm.2], by rw [hm.2], by rw [hm.2],
    getConn_no_close env fuel m w r h, ?_⟩
  intro c ⟨ev, hev, hon⟩
  have hcn : c = w.nextConn := by
    rcases getConn_events env fuel m w r h with ⟨c0, _, hn⟩ | ⟨evs, rest, hn, hall, hrest⟩
    · rw [hn] at hev
      simp only [List.mem_singleton] at hev
      subst hev
      simp [Event.isStartOn] at hon
    · rw [hn] at hev
      simp only [List.mem_append, List.mem_cons] at hev
      rcases hev with (h1 | h1 | h1) | h1
      · rw [preEvents_not_startOn env m c ev h1] at hon
        exact absurd hon (by simp)
      · subst h1
        simp [Event.isStartOn] at hon
      · rw [retryEvent_not_startOn c ev (hall ev h1)] at hon
        exact absurd hon (by simp)
      · rcases hrest with rfl | ⟨err, rfl⟩
        · simp at h1
        · simp only [List.mem_singleton] at h1
          subst h1
          have hw : w.nextConn = c := by simpa [Event.isStartOn] using hon
          exact hw.symm
  refine ⟨hcn, ?_⟩
  intro hold hcache
  rw [hm.2] at hcache
  have hlt := hold c hcache
  rw [hcn] at hlt
  exact Nat.lt_irrefl _ hlt

/-- C10 at a concrete input: the cached connection `0` is dead, connection `1`
is dialed and `StartReplication` fails on it. -/
theorem getConn_error_atomic_witness :
    ∃ r, GetConn envStartFails 1 exCached exWorld1 = some r ∧ r.err ≠ none ∧
      r.conn = none ∧ r.manager = exCached ∧
      (newEvents exWorld1 r.world).countP Event.isClose = 0 := by
  have hrun : GetConn envStartFails 1 exCached exWorld1 =
      some { conn := none, err := some "replication slot does not exist",
             manager := exCached,
             world :=
              { nextConn := 2
                trace := exWorld1.trace ++
                  [Event.isAlive 0 false, Event.getRawConn exConfig,
                    Event.log "db.internal" 5432,
                    Event.replicationConnect exConfig (some 1) none,
                    Event.startReplication 1 "slot_a" 0 (-1)
                      (some "replication slot does not exist")] } } := by
    decide
  obtain ⟨h1, h2, _, _, _, h3, _⟩ :=
    getConn_error_atomic envStartFails 1 exCached exWorld1 _ hrun (by simp)
  exact ⟨_, hrun, by simp, h1, h2, h3⟩

/-- C9: when the cached connection `d` reports not-alive, `GetConn`, whether
it succeeds or fails, calls `Close` on nothing, so not on `d`; when it
succeeds the manager caches the newly dialed connection in place of `d`. -/
theorem getConn_never_closes_dead (env : Env) (fuel : Nat) (m : Manager) (w : World)
    (d : ConnId) (r : GetConnResult)
    (hc : m.conn = some d) (ha : env.IsAlive d = false)
    (h : GetConn env fuel m w = some r) :
    Event.close d ∉ newEvents w r.world ∧
    (newEvents w r.world).countP Event.isClose = 0 ∧
    (r.err ≠ none → r.manager.conn = some d) ∧
    (r.err = none → r.conn = some w.nextConn ∧ r.manager.conn = some w.nextConn ∧
      (d < w.nextConn → r.manager.conn ≠ some d)) := by
  have hno := getConn_no_close env fuel m w r h
  refine ⟨?_, hno, ?_, ?_⟩
  · intro hmem
    rw [List.countP_eq_zero] at hno
    exact hno _ hmem rfl
  · intro he
    rw [(getConn_error_manager env fuel m w r h he).2]
    exact hc
  · intro he
    cases getConn_cases env fuel m w r h with
    | cached c hc2 ha2 hr =>
      rw [hc] at hc2
      rw [Option.some.inj hc2, ha2] at ha
      exact absurd ha (by simp)
    | dialErr cr e w2 hd hraw hr => rw [hr] at he; exact absurd he (by simp)
    | startErr c e w2 hd hraw hs hr => rw [hr] at he; exact absurd he (by simp)
    | fresh c w2 hd hraw hs hr =>
      have hcn := getConn_fresh_conn env fuel m w _ _ w2 hraw c rfl
      rw [hr, hcn]
      refine ⟨rfl, rfl, ?_⟩
      intro hlt heq
      have hw : w.nextConn = d := Option.some.inj heq
      rw [hw] at hlt
      exact Nat.lt_irrefl _ hlt

/-- C9 at a concrete input: the cached connection `0` is dead and the third
dial succeeds. -/
theorem getConn_never_closes_dead_witness :
    ∃ r, GetConn envThird 3 exCached exWorld1 = some r ∧ r.err = none ∧
      Event.close 0 ∉ newEvents exWorld1 r.world ∧ r.manager.conn = some 1 := by
  have hrun : GetConn envThird 3 exCached exWorld1 =
      some { conn := some 1, err := none,
             manager := { exCached with conn := some 1 },
             world :=
              { nextConn := 2
                trace := exWorld1.trace ++
                  [Event.isAlive 0 false, Event.getRawConn exConfig,
                    Event.log "db.internal" 5432,
                    Event.replicationConnect exConfig none (some "connection refused"),
                    Event.log "db.internal" 5432,
                    Event.replicationConnect exConfig none (some "connection refused"),
                    Event.log "db.internal" 5432,
                    Event.replicationConnect exConfig (some 1) none,
                    Event.startReplication 1 "slot_a" 0 (-1) none] } } := by
    decide
  obtain ⟨h1, _, _, h2⟩ :=
    getConn_never_closes_dead envThird 3 exCached exWorld1 0 _ rfl rfl hrun
  exact ⟨_, hrun, rfl, h1, (h2 rfl).2.1⟩

/-! ## The dial factory -/

theorem attemptsFrom_succ (env : Env) (cfg : ConnConfig) (next : ConnId) :
    ∀ (n i : Nat), attemptsFrom env cfg next i (n + 1) =
      attemptsFrom env cfg next i n ++ attemptEvents env cfg next (i + n) := by
  intro n
  induction n with
  | zero => intro i; simp [attemptsFrom]
  | succ n ih =>
    intro i
    have e1 : i + 1 + n = i + (n + 1) := by omega
    rw [attemptsFrom, ih (i + 1), attemptsFrom, e1, List.append_assoc]

theorem attemptsFrom_length (env : Env) (cfg : ConnConfig) (next : ConnId) :
    ∀ (n i : Nat), (attemptsFrom env cfg next i n).length = 2 * n := by
  intro n
  induction n with
  | zero => intro i; rfl
  | succ n ih =>
    intro i
    rw [attemptsFrom, List.length_append, ih (i + 1)]
    simp [attemptEvents]
    omega

theorem attemptsFrom_count (env : Env) (cfg : ConnConfig) (next : ConnId) :
    ∀ (n i : Nat), (attemptsFrom env cfg next i n).countP Event.isAttempt = n := by
  intro n
  induction n with
  | zero => intro i; rfl
  | succ n ih =>
    intro i
    rw [attemptsFrom, List.countP_append, ih (i + 1)]
    unfold attemptEvents
    cases env.ReplicationConnect i <;> simp [List.countP_cons, Event.isAttempt] <;> omega

/-- The `j`-th attempt is a log line followed by a dial. -/
theorem attemptsFrom_getElem (env : Env) (cfg : ConnConfig) (next : ConnId) :
    ∀ (n i j : Nat), j < n →
      (attemptsFrom env cfg next i n)[2 * j]? = some (Event.log cfg.Host cfg.Port) ∧
      (attemptsFrom env cfg next i n)[2 * j + 1]? =
        some (match env.ReplicationConnect (i + j) with
          | some e => Event.replicationConnect cfg none (some e)
          | none => Event.replicationConnect cfg (some next) none) := by
  intro n
  induction n with
  | zero => intro i j hj; omega
  | succ n ih =>
    intro i j hj
    cases j with
    | zero => simp [attemptsFrom, attemptEvents]
    | succ j =>
      have h := ih (i + 1) j (by omega)
      have e1 : i + 1 + j = i + (j + 1) := by omega
      have e2 : 2 * (j + 1) = 2 * j + 1 + 1 := by omega
      rw [e1] at h
      rw [e2]
      simpa [attemptsFrom, attemptEvents] using h

/-- The loop when the first `n + 1` dials fail and the budget is first found
spent after the last of them. -/
theorem retry_exhausted (env : Env) (cfg : ConnConfig) (maxT : Nat) (n k i : Nat)
    (s : RawState)
    (hfail : ∀ j, j ≤ n → env.ReplicationConnect (s.calls + j) ≠ none)
    (hwithin : ∀ j, j < n → env.GetElapsedTime (i + j) ≤ maxT)
    (hover : env.GetElapsedTime (i + n) > maxT) :
    Retry (operation env cfg) env.GetElapsedTime maxT (n + (k + 1)) i s =
      some (env.ReplicationConnect (s.calls + n),
        { conn := none, err := env.ReplicationConnect (s.calls + n), calls := s.calls + n + 1,
          world :=
            { nextConn := s.world.nextConn
              trace := s.world.trace ++ attemptsFrom env cfg s.world.nextConn s.calls (n + 1) } })
    := by
  rw [retry_skip env cfg maxT n (k + 1) i s
    (fun j hj => ⟨hfail j (Nat.le_of_lt hj), hwithin j hj⟩)]
  obtain ⟨e, he⟩ := Option.ne_none_iff_exists'.mp (hfail n (Nat.le_refl n))
  rw [Retry, operation_fail env cfg _ e he]
  simp only [hover, if_true, he, attemptsFrom_succ, List.append_assoc]

/-- The loop when the first `n` dials fail within the budget and the next
one succeeds. -/
theorem retry_succeeds (env : Env) (cfg : ConnConfig) (maxT : Nat) (n k i : Nat)
    (s : RawState)
    (hfail : ∀ j, j < n → env.ReplicationConnect (s.calls + j) ≠ none ∧
      env.GetElapsedTime (i + j) ≤ maxT)
    (hok : env.ReplicationConnect (s.calls + n) = none) :
    Retry (operation env cfg) env.GetElapsedTime maxT (n + (k + 1)) i s =
      some (none,
        { conn := some s.world.nextConn, err := none, calls := s.calls + n + 1,
          world :=
            { nextConn := s.world.nextConn + 1
              trace := s.world.trace ++ attemptsFrom env cfg s.world.nextConn s.calls (n + 1) } })
    := by
  rw [retry_skip env cfg maxT n (k + 1) i s hfail]
  rw [Retry, operation_ok env cfg _ hok]
  simp only [attemptsFrom_succ, List.append_assoc]

theorem getRawConn_exhausted (env : Env) (cfg : ConnConfig) (w : World) (n fuel : Nat)
    (hfail : ∀ j, j ≤ n → env.ReplicationConnect j ≠ none)
    (hwithin : ∀ j, j < n → env.GetElapsedTime j ≤ MaxElapsedTime)
    (hover : env.GetElapsedTime n > MaxElapsedTime)
    (hfuel : n < fuel) :
    GetRawConn env fuel cfg w =
      some (none, env.ReplicationConnect n,
        { nextConn := w.nextConn
          trace := w.trace ++ Event.getRawConn cfg :: attemptsFrom env cfg w.nextConn 0 (n + 1) })
    := by
  obtain ⟨k, rfl⟩ : ∃ k, fuel = n + (k + 1) := ⟨fuel - n - 1, by omega⟩
  obtain ⟨e, he⟩ := Option.ne_none_iff_exists'.mp (hfail n (Nat.le_refl n))
  unfold GetRawConn
  simp only
  rw [retry_exhausted env cfg MaxElapsedTime n k 0 _
    (by intro j hj; simpa using hfail j hj)
    (by intro j hj; simpa using hwithin j hj)
    (by simpa using hover)]
  simp [he, World.emit]

theorem getRawConn_succeeds (env : Env) (cfg : ConnConfig) (w : World) (n fuel : Nat)
    (hfail : ∀ j, j < n → env.ReplicationConnect j ≠ none ∧
      env.GetElapsedTime j ≤ MaxElapsedTime)
    (hok : env.ReplicationConnect n = none)
    (hfuel : n < fuel) :
    GetRawConn env fuel cfg w =
      some (some w.nextConn, none,
        { nextConn := w.nextConn + 1
          trace := w.trace ++ Event.getRawConn cfg :: attemptsFrom env cfg w.nextConn 0 (n + 1) })
    := by
  obtain ⟨k, rfl⟩ : ∃ k, fuel = n + (k + 1) := ⟨fuel - n - 1, by omega⟩
  unfold GetRawConn
  simp only
  rw [retry_succeeds env cfg MaxElapsedTime n k 0 _
    (by intro j hj; simpa using hfail j hj)
    (by simpa using hok)]
  simp [World.emit]

/-- C6: the budget is 20 seconds.  When the dial attempts `0..n` all fail and
the elapsed time, read after each failure, first exceeds the budget after
attempt `n`, `GetRawConn` ends after exactly these `n + 1` attempts and
returns no connection and the error of attempt `n`, the last one; a `GetConn`
that has to reconnect then returns that same error. -/
theorem getRawConn_budget_exhausted (env : Env) (cfg : ConnConfig) (w : World) (n fuel : Nat)
    (hfail : ∀ j, j ≤ n → env.ReplicationConnect j ≠ none)
    (hwithin : ∀ j, j < n → env.GetElapsedTime j ≤ MaxElapsedTime)
    (hover : env.GetElapsedTime n > MaxElapsedTime)
    (hfuel : n < fuel) :
    MaxElapsedTime = 20 * 1000000000 ∧
    GetRawConn env fuel cfg w =
      some (none, env.ReplicationConnect n,
        { nextConn := w.nextConn
          trace := w.trace ++
            Event.getRawConn cfg :: attemptsFrom env cfg w.nextConn 0 (n + 1) }) ∧
    env.ReplicationConnect n ≠ none ∧
    (attemptsFrom env cfg w.nextConn 0 (n + 1)).countP Event.isAttempt = n + 1 ∧
    (∀ m : Manager, m.sourceConfig = cfg → (∀ d, m.conn = some d → env.IsAlive d = false) →
      ∃ r, GetConn env fuel m w = some r ∧ r.err = env.ReplicationConnect n ∧
        r.conn = none ∧ r.manager = m) := by
  refine ⟨by decide, getRawConn_exhausted env cfg w n fuel hfail hwithin hover hfuel,
    hfail n (Nat.le_refl n), attemptsFrom_count env cfg _ _ _, ?_⟩
  intro m hm hd
  obtain ⟨e, he⟩ := Option.ne_none_iff_exists'.mp (hfail n (Nat.le_refl n))
  have hraw := getRawConn_exhausted env cfg (afterCheck env m w) n fuel hfail hwithin hover hfuel
  rw [he, ← hm] at hraw
  exact ⟨_, getConn_dial_err env fuel m w hd _ e _ hraw, he.symm, rfl, rfl⟩

/-- C6 at a concrete input: every dial fails and the elapsed time read after
the attempts is 8s, 16s, 24s; the third attempt is the last. -/
theorem getRawConn_budget_exhausted_witness :
    envDown.GetElapsedTime 2 > MaxElapsedTime ∧
    GetRawConn envDown 3 exConfig World.init =
      some (none, some "timeout",
        { nextConn := 0
          trace := Event.getRawConn exConfig :: attemptsFrom envDown exConfig 0 0 3 }) := by
  refine ⟨by decide, ?_⟩
  exact (getRawConn_budget_exhausted envDown exConfig World.init 2 3
    (by intro j _; simp [envDown])
    (by intro j hj; simp only [envDown, MaxElapsedTime, Second]; omega)
    (by decide) (by decide)).2.1

/-- C7: for `k ≥ 1`, when the dial attempts `1..k-1` fail, each with the
elapsed time read after it within the budget, and attempt `k` succeeds,
`GetRawConn` returns the connection of attempt `k` and a nil error after
exactly `k` dial attempts.  Its calls are `k` pairs of a log line naming host
and port and a dial; the first `k-1` dials gave no connection. -/
theorem getRawConn_kth_attempt (env : Env) (cfg : ConnConfig) (w : World) (k fuel : Nat)
    (hk : 1 ≤ k)
    (hfail : ∀ j, j < k - 1 → env.ReplicationConnect j ≠ none ∧
      env.GetElapsedTime j ≤ MaxElapsedTime)
    (hok : env.ReplicationConnect (k - 1) = none)
    (hfuel : k ≤ fuel) :
    GetRawConn env fuel cfg w =
      some (some w.nextConn, none,
        { nextConn := w.nextConn + 1
          trace := w.trace ++ Event.getRawConn cfg :: attemptsFrom env cfg w.nextConn 0 k }) ∧
    (attemptsFrom env cfg w.nextConn 0 k).length = 2 * k ∧
    (attemptsFrom env cfg w.nextConn 0 k).countP Event.isAttempt = k ∧
    (∀ j, j < k →
      (attemptsFrom env cfg w.nextConn 0 k)[2 * j]? = some (Event.log cfg.Host cfg.Port) ∧
      (attemptsFrom env cfg w.nextConn 0 k)[2 * j + 1]? =
        some (Event.replicationConnect cfg (if j = k - 1 then some w.nextConn else none)
          (env.ReplicationConnect j))) := by
  obtain ⟨n, rfl⟩ : ∃ n, k = n + 1 := ⟨k - 1, by omega⟩
  simp only [Nat.add_sub_cancel] at hfail hok ⊢
  refine ⟨getRawConn_succeeds env cfg w n fuel hfail hok (by omega),
    attemptsFrom_length env cfg _ _ _, attemptsFrom_count env cfg _ _ _, ?_⟩
  intro j hj
  have h := attemptsFrom_getElem env cfg w.nextConn (n + 1) 0 j hj
  refine ⟨h.1, ?_⟩
  rw [h.2]
  by_cases hjn : j = n
  · subst hjn
    simp [hok]
  · obtain ⟨e, he⟩ := Option.ne_none_iff_exists'.mp (hfail j (by omega)).1
    simp [he, hjn]

/-- C7 at the scenario of the specification: the dial fails twice and
succeeds the third time. -/
theorem getRawConn_kth_attempt_witness :
    envThird.ReplicationConnect 2 = none ∧
    GetRawConn envThird 3 exConfig exWorld1 =
      some (some 1, none,
        { nextConn := 2
          trace := exWorld1.trace ++
            [Event.getRawConn exConfig,
              Event.log "db.internal" 5432,
              Event.replicationConnect exConfig none (some "connection refused"),
              Event.log "db.internal" 5432,
              Event.replicationConnect exConfig none (some "connection refused"),
              Event.log "db.internal" 5432,
              Event.replicationConnect exConfig (some 1) none] }) := by
  refine ⟨rfl, ?_⟩
  have h := (getRawConn_kth_attempt envThird exConfig exWorld1 3 3 (by decide)
    (by
      intro j hj
      have hj2 : j < 2 := hj
      refine ⟨by simp [envThird, hj2], ?_⟩
      simp only [envThird, MaxElapsedTime, Second]
      omega)
    rfl (by decide)).1
  rw [h]
  decide

/-! ## Close -/

theorem close_conn_none (m : Manager) (w : World) : (Close m w).1.conn = none := by
  unfold Close
  cases h : m.conn <;> simp [h]

theorem closeTimes_of_none (n : Nat) (m : Manager) (w : World) (h : m.conn = none) :
    closeTimes n m w = (m, w) := by
  induction n with
  | zero => rfl
  | succ n ih =>
    have hc : Close m w = (m, w) := by simp [Close, h]
    rw [closeTimes, hc]
    exact ih

theorem closeTimes_eq_close (n : Nat) (m : Manager) (w : World) :
    closeTimes (n + 1) m w = Close m w := by
  rw [closeTimes, closeTimes_of_none n _ _ (close_conn_none m w)]

/-- C4: for every `N ≥ 1`, `N` calls of `Close` leave the manager and the
world as one call does: no connection is cached, and the calls made are one
`Close` on the cached connection if there was one and none otherwise, as for
a manager fresh from `NewManager`.  `Close` returns nothing, so no error.  A
`GetConn` issued afterwards makes no liveness check: its first call is the
entry into `GetRawConn`, which it enters exactly once, and a connection it
returns is the newly dialed one, different from any connection that existed
before. -/
theorem close_idempotent (m : Manager) (w : World) (N : Nat) (hN : 1 ≤ N) :
    closeTimes N m w = Close m w ∧
    (closeTimes N m w).1 = { m with conn := none } ∧
    (closeTimes N m w).2.nextConn = w.nextConn ∧
    newEvents w (closeTimes N m w).2 =
      (match m.conn with
        | none => []
        | some c => [Event.close c]) ∧
    (newEvents w (closeTimes N m w).2).countP Event.isClose =
      (if m.conn.isSome then 1 else 0) ∧
    (∀ cfg slot, closeTimes N (NewManager cfg slot) w = (NewManager cfg slot, w)) ∧
    (∀ env fuel r,
      GetConn env fuel (closeTimes N m w).1 (closeTimes N m w).2 = some r →
      (∃ evs, newEvents (closeTimes N m w).2 r.world =
        Event.getRawConn m.sourceConfig :: evs) ∧
      (newEvents (closeTimes N m w).2 r.world).countP Event.isDial = 1 ∧
      (∀ c, r.conn = some c → c = w.nextConn ∧ ∀ d, d < w.nextConn → c ≠ d)) := by
  obtain ⟨n, rfl⟩ : ∃ n, N = n + 1 := ⟨N - 1, by omega⟩
  have hcl := closeTimes_eq_close n m w
  have hm : (Close m w).1 = { m with conn := none } := by
    unfold Close
    cases h : m.conn <;> simp [h]
    cases m
    simp_all
  have hnext : (Close m w).2.nextConn = w.nextConn := by
    unfold Close
    cases h : m.conn <;> simp [h, World.emit]
  have hev : newEvents w (Close m w).2 =
      (match m.conn with
        | none => []
        | some c => [Event.close c]) := by
    unfold Close
    cases h : m.conn <;> simp [h, World.emit, newEvents]
  rw [hcl]
  refine ⟨rfl, hm, hnext, hev, ?_, ?_, ?_⟩
  · rw [hev]
    cases h : m.conn <;> simp [h, Event.isClose]
  · intro cfg slot
    exact closeTimes_of_none (n + 1) _ w rfl
  · intro env fuel r hr
    have hnone : (Close m w).1.conn = none := close_conn_none m w
    have hcfg : (Close m w).1.sourceConfig = m.sourceConfig := by rw [hm]
    have hpre : preEvents env (Close m w).1 = [] := by simp [preEvents, hnone]
    refine ⟨?_, ?_, ?_⟩
    · rcases getConn_events env fuel _ _ r hr with ⟨c, hc, _⟩ | ⟨evs, rest, hn, _, _⟩
      · rw [hnone] at hc
        exact absurd hc (by simp)
      · rw [hpre, hcfg] at hn
        exact ⟨evs ++ rest, by simpa using hn⟩
    · rcases getConn_events env fuel _ _ r hr with ⟨c, hc, _⟩ | ⟨evs, rest, hn, hall, hrest⟩
      · rw [hnone] at hc
        exact absurd hc (by simp)
      · rw [hn, countP_reconnect Event.isDial _ _ _ _
          (preEvents_not_dial env (Close m w).1)
          (fun ev h => retryEvent_not_dial ev (hall ev h))]
        rcases hrest with rfl | ⟨err, rfl⟩ <;> rfl
    · intro c hc
      have hcn : c = w.nextConn := by
        cases getConn_cases env fuel _ _ r hr with
        | cached c0 hc0 ha hr0 =>
          rw [hnone] at hc0
          exact absurd hc0 (by simp)
        | dialErr cr e w2 hd hraw hr0 => rw [hr0] at hc; exact absurd hc (by simp)
        | startErr c0 e w2 hd hraw hs hr0 => rw [hr0] at hc; exact absurd hc (by simp)
        | fresh c0 w2 hd hraw hs hr0 =>
          rw [hr0] at hc
          have h1 := getConn_fresh_conn env fuel _ _ _ _ w2 hraw c0 rfl
          rw [hnext] at h1
          rw [← h1]
          exact (Option.some.inj hc).symm
      refine ⟨hcn, ?_⟩
      intro d hd heq
      rw [hcn] at heq
      rw [heq] at hd
      exact Nat.lt_irrefl _ hd

/-- C4 at a concrete input: three calls of `Close` on the manager caching
connection `0`. -/
theorem close_idempotent_witness :
    closeTimes 3 exCached exWorld1 = Close exCached exWorld1 ∧
    (closeTimes 3 exCached exWorld1).1 = exManager ∧
    newEvents exWorld1 (closeTimes 3 exCached exWorld1).2 = [Event.close 0] := by
  obtain ⟨h1, h2, _, h3, _⟩ := close_idempotent exCached exWorld1 3 (by decide)
  exact ⟨h1, h2, h3⟩

/-! ## The cached connection has replication started -/

theorem startOn_isStart (c : ConnId) (ev : Event) (h : ev.isStartOn c = true) :
    ev.isStart = true := by
  cases ev <;> simp_all [Event.isStartOn, Event.isStart]

theorem not_start_not_startOn (c : ConnId) (ev : Event) (h : ev.isStart = false) :
    ev.isStartOn c = false := by
  cases ev <;> simp_all [Event.isStartOn, Event.isStart]

theorem reconnect_no_start (env : Env) (m : Manager) (evs : List Event)
    (hall : ∀ ev ∈ evs, ev.isRetryEvent = true) :
    ∀ ev ∈ preEvents env m ++ Event.getRawConn m.sourceConfig :: evs, ev.isStart = false := by
  intro ev hev
  simp only [List.mem_append, List.mem_cons] at hev
  rcases hev with h1 | h1 | h1
  · exact preEvents_not_start env m ev h1
  · subst h1
    rfl
  · exact retryEvent_not_start ev (hall ev h1)

/-- One call of `GetConn`, seen from the trace: either no `StartReplication`
is called, and manager and identities stay, or the calls end with one
`StartReplication` on the connection just dialed, and the manager caches that
connection exactly when the call succeeded. -/
theorem getConn_step (env : Env) (fuel : Nat) (m : Manager) (w : World) (r : GetConnResult)
    (h : GetConn env fuel m w = some r) :
    (∃ evs, r.world.trace = w.trace ++ evs ∧ (∀ ev ∈ evs, ev.isStart = false) ∧
      r.manager = m ∧ r.world.nextConn = w.nextConn) ∨
    (∃ evs err,
      r.world.trace =
        w.trace ++ evs ++ [Event.startReplication w.nextConn m.replicationSlot 0 (-1) err] ∧
      (∀ ev ∈ evs, ev.isStart = false) ∧
      Event.replicationConnect m.sourceConfig (some w.nextConn) none ∈ evs ∧
      r.world.nextConn = w.nextConn + 1 ∧
      ((err ≠ none ∧ r.manager = m) ∨
        (err = none ∧ r.manager = { m with conn := some w.nextConn }))) := by
  have hnext : (afterCheck env m w).nextConn = w.nextConn := by rw [afterCheck_eq]
  cases getConn_cases env fuel m w r h with
  | cached c hc ha hr =>
    left
    refine ⟨[Event.isAlive c true], by rw [hr]; rfl, ?_, by rw [hr], by rw [hr]; rfl⟩
    intro ev hev
    simp only [List.mem_singleton] at hev
    subst hev
    rfl
  | dialErr cr e w2 hd hraw hr =>
    left
    obtain ⟨evs, hsh⟩ := getRawConn_shape env fuel _ _ _ _ _ hraw
    refine ⟨_, by rw [hr]; exact raw_trace env m w _ _ w2 evs hsh,
      reconnect_no_start env m evs hsh.2.1, by rw [hr], ?_⟩
    rcases hsh.2.2 with ⟨h1, _⟩ | ⟨_, _, h3⟩
    · exact absurd h1 (by simp)
    · rw [hr, ← hnext]
      exact h3
  | startErr c e w2 hd hraw hs hr =>
    right
    obtain ⟨evs, hsh⟩ := getRawConn_shape env fuel _ _ _ _ _ hraw
    rcases hsh.2.2 with ⟨_, h2, h3, h4⟩ | ⟨h1, _⟩
    · have hcn : c = w.nextConn := by rw [← hnext]; exact Option.some.inj h2
      subst hcn
      refine ⟨_, some e, ?_, reconnect_no_start env m evs hsh.2.1, ?_, ?_,
        Or.inl ⟨by simp, by rw [hr]⟩⟩
      · rw [hr]
        simp [World.emit, raw_trace env m w _ _ w2 evs hsh]
      · rw [hnext] at h4
        exact List.mem_append.mpr (Or.inr (List.mem_cons_of_mem _ h4))
      · rw [hr]
        simpa [World.emit, hnext] using h3
    · exact absurd rfl h1
  | fresh c w2 hd hraw hs hr =>
    right
    obtain ⟨evs, hsh⟩ := getRawConn_shape env fuel _ _ _ _ _ hraw
    rcases hsh.2.2 with ⟨_, h2, h3, h4⟩ | ⟨h1, _⟩
    · have hcn : c = w.nextConn := by rw [← hnext]; exact Option.some.inj h2
      subst hcn
      refine ⟨_, none, ?_, reconnect_no_start env m evs hsh.2.1, ?_, ?_,
        Or.inr ⟨rfl, by rw [hr]⟩⟩
      · rw [hr]
        simp [World.emit, raw_trace env m w _ _ w2 evs hsh]
      · rw [hnext] at h4
        exact List.mem_append.mpr (Or.inr (List.mem_cons_of_mem _ h4))
      · rw [hr]
        simpa [World.emit, hnext] using h3
    · exact absurd rfl h1

theorem cacheInv_init (cfg : ConnConfig) (slot : String) :
    CacheInv (NewManager cfg slot) World.init := by
  refine ⟨?_, ?_⟩
  · intro ev hev
    simp [World.init] at hev
  · intro c hc
    simp [NewManager] at hc

theorem cacheInv_close (m : Manager) (w : World) (h : CacheInv m w) :
    CacheInv (Close m w).1 (Close m w).2 := by
  refine ⟨?_, ?_⟩
  · intro ev hev c hon
    unfold Close at hev ⊢
    cases hc : m.conn with
    | none =>
      simp only [hc] at hev ⊢
      exact h.1 ev hev c hon
    | some d =>
      simp only [hc, World.emit, List.mem_append, List.mem_singleton] at hev ⊢
      rcases hev with h1 | h1
      · exact h.1 ev h1 c hon
      · subst h1
        simp [Event.isStartOn] at hon
  · intro c hc
    rw [close_conn_none] at hc
    exact absurd hc (by simp)

theorem countP_startOn_append (c : ConnId) (l evs : List Event)
    (h : ∀ ev ∈ evs, ev.isStart = false) :
    (l ++ evs).countP (Event.isStartOn c) = l.countP (Event.isStartOn c) := by
  rw [List.countP_append,
    countP_zero_of_false _ evs (fun ev hev => not_start_not_startOn c ev (h ev hev))]
  rfl

theorem cacheInv_getConn (env : Env) (fuel : Nat) (m : Manager) (w : World)
    (r : GetConnResult) (hinv : CacheInv m w) (h : GetConn env fuel m w = some r) :
    CacheInv r.manager r.world := by
  rcases getConn_step env fuel m w r h with
    ⟨evs, htr, hns, hm, hnx⟩ | ⟨evs, err, htr, hns, hdial, hnx, hcase⟩
  · refine ⟨?_, ?_⟩
    · intro ev hev c hon
      rw [htr] at hev
      rw [hnx]
      rcases List.mem_append.mp hev with h1 | h1
      · exact hinv.1 ev h1 c hon
      · rw [not_start_not_startOn c ev (hns ev h1)] at hon
        exact absurd hon (by simp)
    · intro c hc
      rw [hm] at hc ⊢
      obtain ⟨h1, h2, h3, h4⟩ := hinv.2 c hc
      rw [hnx, htr]
      exact ⟨h1, List.mem_append.mpr (Or.inl h2), List.mem_append.mpr (Or.inl h3),
        by rw [countP_startOn_append c _ _ hns]; exact h4⟩
  · have hI1 : ∀ ev ∈ r.world.trace, ∀ c, ev.isStartOn c = true → c < r.world.nextConn := by
      intro ev hev c hon
      rw [htr] at hev
      rw [hnx]
      simp only [List.mem_append, List.mem_singleton] at hev
      rcases hev with (h1 | h1) | h1
      · exact Nat.lt_succ_of_lt (hinv.1 ev h1 c hon)
      · rw [not_start_not_startOn c ev (hns ev h1)] at hon
        exact absurd hon (by simp)
      · subst h1
        have hw : w.nextConn = c := by simpa [Event.isStartOn] using hon
        rw [← hw]
        exact Nat.lt_succ_self _
    refine ⟨hI1, ?_⟩
    intro c hc
    rcases hcase with ⟨herr, hm⟩ | ⟨herr, hm⟩
    · rw [hm] at hc ⊢
      obtain ⟨h1, h2, h3, h4⟩ := hinv.2 c hc
      rw [hnx, htr]
      refine ⟨Nat.lt_succ_of_lt h1, ?_, ?_, ?_⟩
      · exact List.mem_append.mpr (Or.inl (List.mem_append.mpr (Or.inl h2)))
      · exact List.mem_append.mpr (Or.inl (List.mem_append.mpr (Or.inl h3)))
      · rw [List.countP_append, countP_startOn_append c _ _ hns, h4]
        have hne : (w.nextConn == c) = false := by
          simp only [beq_eq_false_iff_ne, ne_eq]
          intro heq
          rw [heq] at h1
          exact Nat.lt_irrefl _ h1
        simp [Event.isStartOn, hne]
    · subst herr
      rw [hm] at hc ⊢
      have hcn : w.nextConn = c := Option.some.inj hc
      subst hcn
      rw [hnx, htr]
      refine ⟨Nat.lt_succ_self _, ?_, ?_, ?_⟩
      · exact List.mem_append.mpr (Or.inl (List.mem_append.mpr (Or.inr hdial)))
      · exact List.mem_append.mpr (Or.inr (List.mem_singleton.mpr rfl))
      · have hzero : w.trace.countP (Event.isStartOn w.nextConn) = 0 := by
          rw [List.countP_eq_zero]
          intro ev hev hon
          exact Nat.lt_irrefl _ (hinv.1 ev hev _ hon)
        rw [List.countP_append, countP_startOn_append _ _ _ hns, hzero]
        simp [Event.isStartOn]

theorem reachable_inv (cfg : ConnConfig) (slot : String) (m : Manager) (w : World)
    (h : Reachable cfg slot m w) :
    m.sourceConfig = cfg ∧ m.replicationSlot = slot ∧ CacheInv m w := by
  induction h with
  | init => exact ⟨rfl, rfl, cacheInv_init cfg slot⟩
  | getConn env fuel m w r _ hr ih =>
    refine ⟨?_, ?_, cacheInv_getConn env fuel m w r ih.2.2 hr⟩
    · rw [← ih.1]
      cases getConn_cases env fuel m w r hr with
      | cached c hc ha hr0 => rw [hr0]
      | dialErr cr e w2 hd hraw hr0 => rw [hr0]
      | startErr c e w2 hd hraw hs hr0 => rw [hr0]
      | fresh c w2 hd hraw hs hr0 => rw [hr0]
    · rw [← ih.2.1]
      cases getConn_cases env fuel m w r hr with
      | cached c hc ha hr0 => rw [hr0]
      | dialErr cr e w2 hd hraw hr0 => rw [hr0]
      | startErr c e w2 hd hraw hs hr0 => rw [hr0]
      | fresh c w2 hd hraw hs hr0 => rw [hr0]
  | close m w _ ih =>
    refine ⟨?_, ?_, cacheInv_close m w ih.2.2⟩
    · rw [← ih.1]
      unfold Close
      cases m.conn <;> rfl
    · rw [← ih.2.1]
      unfold Close
      cases m.conn <;> rfl

/-- C8: in every state reachable from `NewManager cfg slot` by calls of
`GetConn` and `Close`, the cached connection, if present, came out of a dial
with the manager's configuration and has had `StartReplication` called on it
exactly once, with the manager's slot, start `0` and `-1`, successfully.  So a
connection returned by a successful `GetConn` in such a state is the one the
manager then caches and has replication started on it, once. -/
theorem reachable_cache_started (cfg : ConnConfig) (slot : String) (m : Manager) (w : World)
    (h : Reachable cfg slot m w) :
    (∀ c, m.conn = some c →
      Event.replicationConnect cfg (some c) none ∈ w.trace ∧
      Event.startReplication c slot 0 (-1) none ∈ w.trace ∧
      w.trace.countP (Event.isStartOn c) = 1) ∧
    (∀ env fuel r, GetConn env fuel m w = some r → r.err = none →
      ∃ c, r.conn = some c ∧ r.manager.conn = some c ∧
        Event.replicationConnect cfg (some c) none ∈ r.world.trace ∧
        Event.startReplication c slot 0 (-1) none ∈ r.world.trace ∧
        r.world.trace.countP (Event.isStartOn c) = 1) := by
  have key : ∀ m w, Reachable cfg slot m w → ∀ c, m.conn = some c →
      Event.replicationConnect cfg (some c) none ∈ w.trace ∧
      Event.startReplication c slot 0 (-1) none ∈ w.trace ∧
      w.trace.countP (Event.isStartOn c) = 1 := by
    intro m w hr c hc
    obtain ⟨h1, h2, h3⟩ := reachable_inv cfg slot m w hr
    obtain ⟨_, h5, h6, h7⟩ := h3.2 c hc
    rw [h1] at h5
    rw [h2] at h6
    exact ⟨h5, h6, h7⟩
  refine ⟨key m w h, ?_⟩
  intro env fuel r hr he
  obtain ⟨c, hc1, hc2⟩ := getConn_success_cached env fuel m w r hr he
  exact ⟨c, hc1, hc2, key _ _ (Reachable.getConn env fuel m w r h hr) c hc2⟩

/-- C8 at a concrete input: the state after the first `GetConn` of a fresh
manager. -/
theorem reachable_cache_started_witness :
    Reachable exConfig "slot_a" exCached exWorld1 ∧
    Event.startReplication 0 "slot_a" 0 (-1) none ∈ exWorld1.trace ∧
    exWorld1.trace.countP (Event.isStartOn 0) = 1 := by
  have hrun : GetConn envOk 1 (NewManager exConfig "slot_a") World.init =
      some { conn := some 0, err := none, manager := exCached, world := exWorld1 } := by
    decide
  have hreach : Reachable exConfig "slot_a" exCached exWorld1 :=
    Reachable.getConn envOk 1 _ _ _ Reachable.init hrun
  obtain ⟨_, h2, h3⟩ := (reachable_cache_started exConfig "slot_a" exCached exWorld1 hreach).1
    0 rfl
  exact ⟨hreach, h2, h3⟩

end Conn
